import Mathlib

/-!
Verification of the hybrid vector-search engine (mrmosho/vector-search-api).

This file gives a shallow embedding, in Lean 4, of the algorithmic core of the
repository — query classification (`query_analyzer.py`), score fusion
(`hybrid_searcher.py`), the keyword retriever's search path
(`keyword_index.py`), the semantic index lifecycle (`semantic_index.py`), and
the service-level filtering, deduplication and result assembly
(`search_service.py`, `result_formatter.py`) — and proves or refutes the frozen
claims about that core.

Modelling conventions:
* Python strings are modelled as Lean `String` / `List Char` (sequences of
  code points); `str.strip()` is `pyStrip` (ASCII whitespace), `str.isalnum()`
  is `pyIsAlnum` (ASCII letters and digits; the claims only concern ASCII
  data).
* Python floats are modelled as exact rationals `ℚ`.
* External numeric collaborators (the TF-IDF transform, the embedding model,
  FAISS) are oracles: their outputs (similarity lists, candidate lists) are
  parameters of the embedded functions, exactly as the spec declares them
  out of scope.
* Fallible operations (file loads, index builds) are modelled by explicit
  success/failure flags; an exception caught in the source corresponds to the
  failure branch of the flag.
-/

/-- Model of Python `str.strip()` on a list of code points: drop leading and
trailing whitespace characters. -/
def pyStripL (s : List Char) : List Char :=
  ((s.dropWhile Char.isWhitespace).reverse.dropWhile Char.isWhitespace).reverse

/-- Model of Python `str.strip()` on `String`. -/
def pyStrip (s : String) : String := ⟨pyStripL s.data⟩

/-- Model of Python `str.isalnum()`: true iff the string is non-empty and all
its characters are alphanumeric. -/
def pyIsAlnum (s : String) : Bool := !s.data.isEmpty && s.data.all Char.isAlphanum

/-- ASCII punctuation: a printable ASCII character (codes 0x21–0x7e) that is
not alphanumeric. This is exactly the 32 ASCII punctuation characters. -/
def isAsciiPunct (c : Char) : Bool :=
  decide (0x21 ≤ c.toNat) && decide (c.toNat ≤ 0x7e) && !c.isAlphanum

namespace QueryAnalyzer

/-- Embedding of `QueryAnalyzer.is_short_query` (src/query_analyzer.py,
lines 10–14): the stripped query has length at most `maxLength` (default 6)
and passes `isalnum`. -/
def is_short_query (query : String) (maxLength : Nat := 6) : Bool :=
  let cleaned := pyStrip query
  decide (cleaned.length ≤ maxLength) && pyIsAlnum cleaned

/-- The weight record returned by `QueryAnalyzer.get_search_weights`. -/
structure SearchWeights where
  semantic_weight : ℚ
  keyword_weight : ℚ
  strategy : String
  deriving Repr, DecidableEq

/-- Embedding of `QueryAnalyzer.get_search_weights` (src/query_analyzer.py,
lines 16–32). -/
def get_search_weights (query : String) : SearchWeights :=
  if is_short_query query then
    { semantic_weight := 9/10, keyword_weight := 1/10, strategy := "keyword-focused" }
  else
    { semantic_weight := 3/10, keyword_weight := 7/10, strategy := "semantic-focused" }

/-- The analysis record returned by `QueryAnalyzer.analyze_query`. -/
structure QueryAnalysis where
  query : String
  is_short : Bool
  length : Nat
  semantic_weight : ℚ
  keyword_weight : ℚ
  strategy : String
  deriving Repr, DecidableEq

/-- Embedding of `QueryAnalyzer.analyze_query` (src/query_analyzer.py,
lines 34–47). -/
def analyze_query (query : String) : QueryAnalysis :=
  let weights := get_search_weights query
  { query := pyStrip query
    is_short := is_short_query query
    length := (pyStrip query).length
    semantic_weight := weights.semantic_weight
    keyword_weight := weights.keyword_weight
    strategy := weights.strategy }

end QueryAnalyzer

/-- C1: for every query string, a short-classified query is analyzed with
semantic weight 0.9, keyword weight 0.1 and strategy label "keyword-focused",
and any other query with semantic weight 0.3, keyword weight 0.7 and strategy
label "semantic-focused"; in particular the query "COMI" gets semantic weight
0.9 and keyword weight 0.1. -/
theorem C1_weight_assignment :
    ∀ q : String,
      ((QueryAnalyzer.analyze_query q).is_short = true →
        (QueryAnalyzer.analyze_query q).semantic_weight = 9/10 ∧
        (QueryAnalyzer.analyze_query q).keyword_weight = 1/10 ∧
        (QueryAnalyzer.analyze_query q).strategy = "keyword-focused") ∧
      ((QueryAnalyzer.analyze_query q).is_short = false →
        (QueryAnalyzer.analyze_query q).semantic_weight = 3/10 ∧
        (QueryAnalyzer.analyze_query q).keyword_weight = 7/10 ∧
        (QueryAnalyzer.analyze_query q).strategy = "semantic-focused") ∧
      (QueryAnalyzer.analyze_query "COMI").semantic_weight = 9/10 ∧
      (QueryAnalyzer.analyze_query "COMI").keyword_weight = 1/10 := by
  have hCOMI : QueryAnalyzer.is_short_query "COMI" = true := by decide
  intro q
  refine ⟨?_, ?_, ?_, ?_⟩
  · intro h
    simp only [QueryAnalyzer.analyze_query, QueryAnalyzer.get_search_weights] at h ⊢
    simp [h]
  · intro h
    simp only [QueryAnalyzer.analyze_query, QueryAnalyzer.get_search_weights] at h ⊢
    simp [h]
  · simp [QueryAnalyzer.analyze_query, QueryAnalyzer.get_search_weights, hCOMI]
  · simp [QueryAnalyzer.analyze_query, QueryAnalyzer.get_search_weights, hCOMI]

/-- Witness for C1: the hypotheses of both implications are dischargeable at
concrete queries ("COMI" is short, "hello world" is not). -/
theorem C1_weight_assignment_witness :
    (QueryAnalyzer.analyze_query "COMI").semantic_weight = 9/10 ∧
    (QueryAnalyzer.analyze_query "hello world").keyword_weight = 7/10 :=
  ⟨((C1_weight_assignment "COMI").1 (by decide)).1,
   (((C1_weight_assignment "hello world").2.1 (by decide)).2.1)⟩

/-- C2: the classifier marks a query short exactly when the stripped query has
length at most 6 and passes the `isalnum` check (non-empty, all characters
alphanumeric); "ABCDEF" is short, "ABCDEFG" is long, and any query whose
stripped form has length at most 6 but contains a space or an ASCII
punctuation character is long. -/
theorem C2_short_classification :
    ∀ q : String,
      (QueryAnalyzer.is_short_query q = true ↔
        (pyStrip q).length ≤ 6 ∧ pyStrip q ≠ "" ∧
          ∀ c ∈ (pyStrip q).data, c.isAlphanum = true) ∧
      QueryAnalyzer.is_short_query "ABCDEF" = true ∧
      QueryAnalyzer.is_short_query "ABCDEFG" = false ∧
      ((pyStrip q).length ≤ 6 →
        (∃ c ∈ (pyStrip q).data, c = ' ' ∨ isAsciiPunct c = true) →
        QueryAnalyzer.is_short_query q = false) := by
  intro q
  have hchar : ∀ q : String, QueryAnalyzer.is_short_query q = true ↔
      (pyStrip q).length ≤ 6 ∧ pyStrip q ≠ "" ∧
        ∀ c ∈ (pyStrip q).data, c.isAlphanum = true := by
    intro q
    have hne : pyStrip q = "" ↔ (pyStrip q).data = [] := by
      rw [String.ext_iff]
    simp only [QueryAnalyzer.is_short_query, pyIsAlnum, Bool.and_eq_true,
      decide_eq_true_eq, Bool.not_eq_true', Bool.eq_false_iff, ne_eq,
      List.isEmpty_iff, List.all_eq_true, hne, and_assoc]
  refine ⟨hchar q, by decide, by decide, ?_⟩
  rintro hlen ⟨c, hc, hor⟩
  have halnum : c.isAlphanum = false := by
    rcases hor with h | h
    · subst h; decide
    · simp only [isAsciiPunct, Bool.and_eq_true, Bool.not_eq_true'] at h
      exact h.2
  cases hshort : QueryAnalyzer.is_short_query q with
  | false => rfl
  | true =>
    rcases (hchar q).mp hshort with ⟨-, -, hall⟩
    rw [hall c hc] at halnum
    exact absurd halnum (by simp)

/-- Witness for C2: the space/punctuation implication discharged at the
concrete queries "AB CD" (space) and "A.B" (punctuation). -/
theorem C2_short_classification_witness :
    QueryAnalyzer.is_short_query "AB CD" = false ∧
    QueryAnalyzer.is_short_query "A.B" = false :=
  ⟨(C2_short_classification "AB CD").2.2.2 (by decide) ⟨' ', by decide, Or.inl rfl⟩,
   (C2_short_classification "A.B").2.2.2 (by decide) ⟨'.', by decide, Or.inr (by decide)⟩⟩

namespace HybridSearcher

/-- One candidate returned by a retriever: a document index, a score and the
source strategy tag, mirroring the dicts built in `semantic_index.py` and
`keyword_index.py`. -/
structure Cand where
  idx : Nat
  score : ℚ
  type : String
  deriving Repr, DecidableEq

/-- Python-dict lookup with default 0: `combined_scores.get(idx, 0)`. -/
def dictGet (m : List (Nat × ℚ)) (k : Nat) : ℚ :=
  match m.find? (fun p => decide (p.1 = k)) with
  | some p => p.2
  | none => 0

/-- Python-dict assignment `combined_scores[idx] = v`: replace the value in
place if the key is present, otherwise append the new binding at the end
(insertion order, as Python dicts preserve it). -/
def dictSet : List (Nat × ℚ) → Nat → ℚ → List (Nat × ℚ)
  | [], k, v => [(k, v)]
  | p :: t, k, v => if p.1 = k then (k, v) :: t else p :: dictSet t k v

/-- One pass of `_combine_results`: for every result add
`score × weight` into the accumulator keyed by `idx`
(src/hybrid_searcher.py, lines 65–73). -/
def addWeighted (w : ℚ) (rs : List Cand) (m : List (Nat × ℚ)) : List (Nat × ℚ) :=
  rs.foldl (fun acc r => dictSet acc r.idx (dictGet acc r.idx + r.score * w)) m

/-- Embedding of `HybridSearcher._combine_results` (src/hybrid_searcher.py,
lines 58–75): semantic results are accumulated first, then keyword results. -/
def combine_results (semantic_results keyword_results : List Cand)
    (semantic_weight keyword_weight : ℚ) : List (Nat × ℚ) :=
  addWeighted keyword_weight keyword_results
    (addWeighted semantic_weight semantic_results [])

/-- The total weighted contribution of a candidate list to one document index:
the sum of `score × w` over the occurrences of that index. -/
def weightedContribution (w : ℚ) (rs : List Cand) (i : Nat) : ℚ :=
  ((rs.filter (fun r => decide (r.idx = i))).map (fun r => r.score * w)).sum

/-- Embedding of `HybridSearcher._get_semantic_results` (src/hybrid_searcher.py,
lines 40–47): empty when the semantic index is not ready, otherwise the
semantic index is queried at depth 30 for short queries and 40 otherwise.
The index itself is the oracle `semSearch`. -/
def get_semantic_results (semReady : Bool) (semSearch : String → Nat → List Cand)
    (query : String) (qa : QueryAnalyzer.QueryAnalysis) : List Cand :=
  if !semReady then []
  else semSearch query (if qa.is_short then 30 else 40)

/-- Embedding of `HybridSearcher._get_keyword_results` (src/hybrid_searcher.py,
lines 49–56): empty when the keyword index is not ready, otherwise the keyword
index is queried at depth 30 for short queries and 20 otherwise. -/
def get_keyword_results (kwReady : Bool) (kwSearch : String → Nat → List Cand)
    (query : String) (qa : QueryAnalyzer.QueryAnalysis) : List Cand :=
  if !kwReady then []
  else kwSearch query (if qa.is_short then 30 else 20)

/-- The candidate-retrieval stage of `HybridSearcher.search`
(src/hybrid_searcher.py, lines 16–30): analyze the query, then fetch both
candidate lists. `topK` is the caller's result bound; in the source it is
passed only to the result formatter, never to the retrievers. -/
def retrieveCandidates (semReady kwReady : Bool)
    (semSearch kwSearch : String → Nat → List Cand)
    (query : String) (topK : Nat) : List Cand × List Cand :=
  let qa := QueryAnalyzer.analyze_query query
  let _ := topK
  (get_semantic_results semReady semSearch query qa,
   get_keyword_results kwReady kwSearch query qa)

theorem dictGet_nil (k : Nat) : dictGet [] k = 0 := rfl

theorem dictGet_cons (p : Nat × ℚ) (t : List (Nat × ℚ)) (j : Nat) :
    dictGet (p :: t) j = if p.1 = j then p.2 else dictGet t j := by
  by_cases h : p.1 = j <;> simp [dictGet, List.find?, h]

theorem dictGet_dictSet (m : List (Nat × ℚ)) (k : Nat) (v : ℚ) (j : Nat) :
    dictGet (dictSet m k v) j = if j = k then v else dictGet m j := by
  induction m with
  | nil =>
    rw [show dictSet [] k v = [(k, v)] from rfl, dictGet_cons]
    by_cases h : j = k
    · simp [h]
    · have hkj : ¬ k = j := fun hh => h hh.symm
      simp [h, hkj]
  | cons p t ih =>
    by_cases hpk : p.1 = k
    · rw [show dictSet (p :: t) k v = (k, v) :: t from by simp [dictSet, hpk],
        dictGet_cons, dictGet_cons]
      by_cases hjk : j = k
      · simp [hjk]
      · have hkj : ¬ k = j := fun hh => hjk hh.symm
        have hpj : ¬ p.1 = j := fun hh => hjk (by rw [← hh, hpk])
        simp [hkj, hpj, hjk]
    · rw [show dictSet (p :: t) k v = p :: dictSet t k v from by simp [dictSet, hpk],
        dictGet_cons, dictGet_cons, ih]
      by_cases hpj : p.1 = j
      · have hjk : ¬ j = k := fun hh => hpk (by rw [hpj, hh])
        simp [hpj, hjk]
      · simp [hpj]

theorem weightedContribution_cons (w : ℚ) (r : Cand) (rs : List Cand) (i : Nat) :
    weightedContribution w (r :: rs) i =
      (if r.idx = i then r.score * w else 0) + weightedContribution w rs i := by
  by_cases h : r.idx = i <;>
    simp [weightedContribution, List.filter, h, add_comm]

theorem addWeighted_get (w : ℚ) (rs : List Cand) (m : List (Nat × ℚ)) (i : Nat) :
    dictGet (addWeighted w rs m) i = dictGet m i + weightedContribution w rs i := by
  induction rs generalizing m with
  | nil => simp [addWeighted, weightedContribution]
  | cons r t ih =>
    have step : addWeighted w (r :: t) m =
        addWeighted w t (dictSet m r.idx (dictGet m r.idx + r.score * w)) := rfl
    rw [step, ih, dictGet_dictSet, weightedContribution_cons]
    by_cases h : i = r.idx
    · subst h; simp [if_pos rfl]; ring
    · have : ¬ r.idx = i := fun hc => h hc.symm
      simp [if_neg h, if_neg this]

end HybridSearcher

/-- C3: the fusion step assigns each document index the sum, over its
occurrences, of score × semantic weight for semantic candidates plus
score × keyword weight for keyword candidates; a document appearing exactly
once in each list with semantic score `ss` and lexical score `sl` gets fused
score `ss * sw + sl * kw`; and the fused mapping does not depend on which of
the two candidate lists is processed first. -/
theorem C3_fusion_additivity :
    ∀ (sem kw : List HybridSearcher.Cand) (sw kwW : ℚ) (i : Nat),
      HybridSearcher.dictGet (HybridSearcher.combine_results sem kw sw kwW) i =
        HybridSearcher.weightedContribution sw sem i +
        HybridSearcher.weightedContribution kwW kw i ∧
      (∀ s t : HybridSearcher.Cand,
        sem.filter (fun r => decide (r.idx = i)) = [s] →
        kw.filter (fun r => decide (r.idx = i)) = [t] →
        HybridSearcher.dictGet (HybridSearcher.combine_results sem kw sw kwW) i =
          s.score * sw + t.score * kwW) ∧
      HybridSearcher.dictGet
          (HybridSearcher.addWeighted kwW kw (HybridSearcher.addWeighted sw sem [])) i =
        HybridSearcher.dictGet
          (HybridSearcher.addWeighted sw sem (HybridSearcher.addWeighted kwW kw [])) i := by
  intro sem kw sw kwW i
  have hmain : HybridSearcher.dictGet (HybridSearcher.combine_results sem kw sw kwW) i =
      HybridSearcher.weightedContribution sw sem i +
      HybridSearcher.weightedContribution kwW kw i := by
    unfold HybridSearcher.combine_results
    rw [HybridSearcher.addWeighted_get, HybridSearcher.addWeighted_get,
      HybridSearcher.dictGet_nil, zero_add]
  refine ⟨hmain, ?_, ?_⟩
  · intro s t hs ht
    rw [hmain]
    unfold HybridSearcher.weightedContribution
    rw [hs, ht]
    simp
  · show HybridSearcher.dictGet (HybridSearcher.combine_results sem kw sw kwW) i = _
    rw [hmain, HybridSearcher.addWeighted_get, HybridSearcher.addWeighted_get,
      HybridSearcher.dictGet_nil, zero_add, add_comm]

/-- Witness for C3: the single-occurrence hypotheses discharged at a concrete
pair of candidate lists, yielding the fused value 2·(9/10) + 3·(1/10). -/
theorem C3_fusion_additivity_witness :
    HybridSearcher.dictGet
      (HybridSearcher.combine_results
        [⟨0, 2, "semantic"⟩] [⟨0, 3, "keyword"⟩] (9/10) (1/10)) 0 =
      (2 : ℚ) * (9/10) + 3 * (1/10) :=
  ((C3_fusion_additivity [⟨0, 2, "semantic"⟩] [⟨0, 3, "keyword"⟩] (9/10) (1/10) 0).2.1
    ⟨0, 2, "semantic"⟩ ⟨0, 3, "keyword"⟩ (by simp [List.filter]) (by simp [List.filter]))

/-- C4: the candidate depth passed to each retriever depends only on the
classifier's is-short flag, never on the caller's `topK`: the retrieval stage
produces identical candidate lists for any two `topK` values, the semantic
retriever is asked for 30 candidates on short queries and 40 otherwise, and
the keyword retriever is asked for 30 candidates on short queries and 20
otherwise. -/
theorem C4_candidate_depths :
    ∀ (semReady kwReady : Bool)
      (semSearch kwSearch : String → Nat → List HybridSearcher.Cand)
      (query : String) (topK topK' : Nat),
      HybridSearcher.retrieveCandidates semReady kwReady semSearch kwSearch query topK =
        HybridSearcher.retrieveCandidates semReady kwReady semSearch kwSearch query topK' ∧
      (semReady = true →
        (HybridSearcher.retrieveCandidates semReady kwReady semSearch kwSearch query topK).1 =
          semSearch query
            (if (QueryAnalyzer.analyze_query query).is_short then 30 else 40)) ∧
      (kwReady = true →
        (HybridSearcher.retrieveCandidates semReady kwReady semSearch kwSearch query topK).2 =
          kwSearch query
            (if (QueryAnalyzer.analyze_query query).is_short then 30 else 20)) := by
  intro semReady kwReady semSearch kwSearch query topK topK'
  refine ⟨rfl, ?_, ?_⟩
  · intro h
    simp [HybridSearcher.retrieveCandidates, HybridSearcher.get_semantic_results, h]
  · intro h
    simp [HybridSearcher.retrieveCandidates, HybridSearcher.get_keyword_results, h]

/-- Witness for C4: the readiness hypotheses discharged at concrete inputs;
for the long query "hello world" the semantic depth is 40 and the keyword
depth is 20, whatever `topK` is. -/
theorem C4_candidate_depths_witness :
    (HybridSearcher.retrieveCandidates true true
        (fun _ n => [⟨n, 1, "semantic"⟩]) (fun _ n => [⟨n, 1, "keyword"⟩])
        "hello world" 5).1 =
      [⟨40, 1, "semantic"⟩] ∧
    (HybridSearcher.retrieveCandidates true true
        (fun _ n => [⟨n, 1, "semantic"⟩]) (fun _ n => [⟨n, 1, "keyword"⟩])
        "hello world" 5).2 =
      [⟨20, 1, "keyword"⟩] := by
  have h := C4_candidate_depths true true
    (fun _ n => [⟨n, 1, "semantic"⟩]) (fun _ n => [⟨n, 1, "keyword"⟩]) "hello world" 5 7
  have hshort : QueryAnalyzer.is_short_query "hello world" = false := by decide
  refine ⟨?_, ?_⟩
  · rw [h.2.1 rfl]
    simp [QueryAnalyzer.analyze_query, hshort]
  · rw [h.2.2 rfl]
    simp [QueryAnalyzer.analyze_query, hshort]

namespace KeywordIndex

/-- Readiness of the keyword index (src/keyword_index.py, lines 119–121):
both the vectorizer and the TF-IDF matrix must be present. -/
def is_ready (vectorizerLoaded tfidfMatrixLoaded : Bool) : Bool :=
  vectorizerLoaded && tfidfMatrixLoaded

/-- Ascending argsort of a similarity list, as `numpy.argsort` over the
vector of similarities: the indices `0 .. n-1` sorted by ascending value. -/
def argsortAsc (sims : List ℚ) : List Nat :=
  List.insertionSort (fun a b : Nat => sims.getD a 0 ≤ sims.getD b 0)
    (List.range sims.length)

/-- Python slice `a[-k:]`: for `k = 0` it is `a[0:]`, the whole sequence
(since `-0 = 0`); for `k ≥ 1` it is the last `min k n` elements. -/
def pySliceLast {α : Type} (k : Nat) (l : List α) : List α :=
  if k = 0 then l else l.drop (l.length - k)

theorem pySliceLast_sublist {α : Type} (k : Nat) (l : List α) :
    (pySliceLast k l).Sublist l := by
  unfold pySliceLast
  by_cases h : k = 0
  · rw [if_pos h]
  · rw [if_neg h]
    exact List.drop_sublist _ _

/-- Embedding of `KeywordIndex.search` (src/keyword_index.py, lines 87–117).
`vocabOk` models the fitted-vocabulary check at line 94; `transform` is the
outcome of `vectorizer.transform` followed by the sparse product: `none` when
that computation raises (the `except` branch at line 114), otherwise the list
of similarity scores per document. The source takes the slice
`argsort()[-top_k:]` (the last `top_k` positions for `top_k ≥ 1`, the whole
array for `top_k = 0`), reverses it, and keeps the strictly positive
scores. -/
def search (vectorizerLoaded tfidfMatrixLoaded vocabOk : Bool)
    (transform : Option (List ℚ)) (top_k : Nat) : List HybridSearcher.Cand :=
  if !is_ready vectorizerLoaded tfidfMatrixLoaded then []
  else
    match transform with
    | none => []
    | some sims =>
      if !vocabOk then []
      else
        let order := argsortAsc sims
        let top_indices := (pySliceLast top_k order).reverse
        (top_indices.filter (fun i => decide (0 < sims.getD i 0))).map
          (fun i => ⟨i, sims.getD i 0, "keyword"⟩)

theorem argsortAsc_sorted (sims : List ℚ) :
    List.Sorted (fun a b : Nat => sims.getD a 0 ≤ sims.getD b 0) (argsortAsc sims) := by
  haveI : IsTotal Nat (fun a b : Nat => sims.getD a 0 ≤ sims.getD b 0) :=
    ⟨fun a b => le_total _ _⟩
  haveI : IsTrans Nat (fun a b : Nat => sims.getD a 0 ≤ sims.getD b 0) :=
    ⟨fun _ _ _ h h' => le_trans h h'⟩
  exact List.sorted_insertionSort _ _

end KeywordIndex

/-- Counterexample to C7: at `top_k = 0` the Python slice
`similarities.argsort()[-0:]` is `[0:]` — the whole array — so a ready search
over the one-document similarity list [1] returns that document: one
candidate, more than the `top_k = 0` the claim's "at most topK" bound
allows. -/
theorem C7_counterexample :
    KeywordIndex.search true true true (some [1]) 0 = [⟨0, 1, "keyword"⟩] ∧
    ¬ (KeywordIndex.search true true true (some [1]) 0).length ≤ 0 := by
  exact ⟨by decide, by decide⟩

/-- C7 (amended): for every readiness state, transform outcome and `top_k`,
the keyword search returns at most `top_k` candidates whenever `top_k ≥ 1`
(at `top_k = 0` the `[-0:]` slice keeps the whole argsort, so every
positive-score candidate is returned instead), every returned candidate has a
strictly positive score, the candidates are ordered by descending score, and
the result is empty (rather than an exception) when the index is not ready or
the transform fails. -/
theorem C7_keyword_search_contract :
    ∀ (vec mat vocab : Bool) (transform : Option (List ℚ)) (top_k : Nat),
      (1 ≤ top_k →
        (KeywordIndex.search vec mat vocab transform top_k).length ≤ top_k) ∧
      (∀ c ∈ KeywordIndex.search vec mat vocab transform top_k, 0 < c.score) ∧
      (KeywordIndex.search vec mat vocab transform top_k).Pairwise
        (fun c c' => c'.score ≤ c.score) ∧
      (KeywordIndex.is_ready vec mat = false ∨ transform = none →
        KeywordIndex.search vec mat vocab transform top_k = []) := by
  intro vec mat vocab transform top_k
  by_cases hready : KeywordIndex.is_ready vec mat = false
  · simp [KeywordIndex.search, hready]
  · have hreadyT : KeywordIndex.is_ready vec mat = true := by
      cases h : KeywordIndex.is_ready vec mat
      · exact absurd h hready
      · rfl
    match transform with
    | none => simp [KeywordIndex.search, hreadyT]
    | some sims =>
      by_cases hvocab : vocab = false
      · refine ⟨?_, ?_, ?_, ?_⟩ <;> simp [KeywordIndex.search, hreadyT, hvocab]
      · have hvocabT : vocab = true := by
          cases h : vocab
          · exact absurd h hvocab
          · rfl
        have hsearch : KeywordIndex.search vec mat vocab (some sims) top_k =
            (((KeywordIndex.pySliceLast top_k (KeywordIndex.argsortAsc sims)).reverse).filter
              (fun i => decide (0 < sims.getD i 0))).map
              (fun i => ⟨i, sims.getD i 0, "keyword"⟩) := by
          simp [KeywordIndex.search, hreadyT, hvocabT]
        refine ⟨?_, ?_, ?_, ?_⟩
        · intro htop
          rw [hsearch, List.length_map]
          have hk0 : ¬ top_k = 0 := by omega
          calc (((KeywordIndex.pySliceLast top_k (KeywordIndex.argsortAsc sims)).reverse).filter
                (fun i => decide (0 < sims.getD i 0))).length
              ≤ ((KeywordIndex.pySliceLast top_k (KeywordIndex.argsortAsc sims)).reverse).length :=
                List.length_filter_le _ _
            _ = (KeywordIndex.pySliceLast top_k (KeywordIndex.argsortAsc sims)).length :=
                List.length_reverse _
            _ ≤ top_k := by
                unfold KeywordIndex.pySliceLast
                rw [if_neg hk0, List.length_drop]
                omega
        · intro c hc
          rw [hsearch] at hc
          rcases List.mem_map.mp hc with ⟨i, hi, hci⟩
          have hpos := List.of_mem_filter hi
          rw [← hci]
          simpa using hpos
        · rw [hsearch]
          refine List.Pairwise.map _ (fun a b h => h) ?_
          apply List.Pairwise.filter
          rw [List.pairwise_reverse]
          exact (KeywordIndex.argsortAsc_sorted sims).sublist
            (KeywordIndex.pySliceLast_sublist _ _)
        · rintro (h | h)
          · exact absurd h hready
          · exact absurd h (by simp)

/-- Witness for C7 (amended): the hypotheses discharged concretely; a ready
search over similarities [1, 0, 2] at depth 2 (≥ 1) returns at most two
candidates, and a not-ready or failed search returns nothing. -/
theorem C7_keyword_search_contract_witness :
    KeywordIndex.search false true true (some [1, 0, 2]) 3 = [] ∧
    KeywordIndex.search true true true none 3 = [] ∧
    (KeywordIndex.search true true true (some [1, 0, 2]) 2).length ≤ 2 :=
  ⟨(C7_keyword_search_contract false true true (some [1, 0, 2]) 3).2.2.2
      (Or.inl rfl),
   (C7_keyword_search_contract true true true none 3).2.2.2 (Or.inr rfl),
   (C7_keyword_search_contract true true true (some [1, 0, 2]) 2).1 (by decide)⟩

namespace SemanticIndex

/-- State of a `SemanticIndex` object: whether `self.embeddings` and
`self.index` are set, and whether the model manager has a loaded model
(`ModelManager.is_loaded`, src/model_manager.py, lines 43–45). -/
structure State where
  embeddingsLoaded : Bool
  indexLoaded : Bool
  modelLoaded : Bool
  deriving Repr, DecidableEq

/-- Environment of one `load_or_create_index` call: whether the two persisted
files exist, whether reading them succeeds (the `try` block of
`_load_existing_index`), and whether a fresh build would succeed (the `try`
block of `_create_new_index`, covering `encode` and the FAISS build). -/
structure Env where
  embFileExists : Bool
  idxFileExists : Bool
  loadSucceeds : Bool
  buildSucceeds : Bool
  deriving Repr, DecidableEq

/-- Embedding of `SemanticIndex._load_existing_index` (src/semantic_index.py,
lines 32–43): when both files exist and loading succeeds, the embeddings and
index fields are populated and the call reports success. -/
def load_existing_index (env : Env) (st : State) : Bool × State :=
  if env.embFileExists && env.idxFileExists then
    if env.loadSucceeds then
      (true, { st with embeddingsLoaded := true, indexLoaded := true })
    else (false, st)
  else (false, st)

/-- Instrumented result of `load_or_create_index`: the returned boolean, the
state afterwards, and whether `_create_new_index` was invoked at all. -/
structure LoadOrCreateResult where
  ready : Bool
  buildAttempted : Bool
  state : State
  deriving Repr, DecidableEq

/-- Embedding of `SemanticIndex._create_new_index` (src/semantic_index.py,
lines 45–69): on success the embeddings and index are populated. -/
def create_new_index (env : Env) (st : State) : Bool × State :=
  if env.buildSucceeds then
    (true, { st with embeddingsLoaded := true, indexLoaded := true })
  else (false, st)

/-- Embedding of `SemanticIndex.load_or_create_index` (src/semantic_index.py,
lines 20–30): first try to load an existing index; if that fails and no model
is loaded, return `False` without building; otherwise build. -/
def load_or_create_index (env : Env) (st : State) : LoadOrCreateResult :=
  let loaded := load_existing_index env st
  if loaded.1 then ⟨true, false, loaded.2⟩
  else if !loaded.2.modelLoaded then ⟨false, false, loaded.2⟩
  else
    let built := create_new_index env loaded.2
    ⟨built.1, true, built.2⟩

/-- Embedding of `SemanticIndex.is_ready` (src/semantic_index.py,
lines 98–102): embeddings, index and model must all be present. -/
def is_ready (st : State) : Bool :=
  st.embeddingsLoaded && st.indexLoaded && st.modelLoaded

end SemanticIndex

/-- Counterexample to C8: with no model loaded but a loadable persisted index
on disk (both files exist and load succeeds), `load_or_create_index` returns
`True` — not the not-ready result the claim asserts for every state in which
the embedding provider is unavailable. -/
theorem C8_counterexample :
    SemanticIndex.load_or_create_index ⟨true, true, true, true⟩ ⟨false, false, false⟩ =
      ⟨true, false, ⟨true, true, false⟩⟩ ∧
    (⟨false, false, false⟩ : SemanticIndex.State).modelLoaded = false := by
  exact ⟨rfl, rfl⟩

/-- C8 (amended): when no model is loaded, if no persisted index is
successfully loaded then `load_or_create_index` returns not-ready without
attempting a build; and whatever the load outcome, the retriever afterwards
reports not ready, since `is_ready` also requires the model. -/
theorem C8_no_model_not_ready :
    ∀ (env : SemanticIndex.Env) (st : SemanticIndex.State),
      st.modelLoaded = false →
      (((SemanticIndex.load_existing_index env st).1 = false →
        (SemanticIndex.load_or_create_index env st).ready = false ∧
        (SemanticIndex.load_or_create_index env st).buildAttempted = false) ∧
      SemanticIndex.is_ready (SemanticIndex.load_or_create_index env st).state = false) := by
  intro env st hmodel
  have hpreserve : (SemanticIndex.load_existing_index env st).2.modelLoaded = false := by
    unfold SemanticIndex.load_existing_index
    by_cases h1 : env.embFileExists && env.idxFileExists
    · by_cases h2 : env.loadSucceeds = true <;> simp [h1, h2, hmodel]
    · simp [h1, hmodel]
  constructor
  · intro hload
    unfold SemanticIndex.load_or_create_index
    simp [hload, hpreserve]
  · unfold SemanticIndex.load_or_create_index
    by_cases hload : (SemanticIndex.load_existing_index env st).1 = true
    · simp [hload, SemanticIndex.is_ready, hpreserve]
    · have hload' : (SemanticIndex.load_existing_index env st).1 = false := by
        cases h : (SemanticIndex.load_existing_index env st).1
        · rfl
        · exact absurd h hload
      simp [hload', hpreserve, SemanticIndex.is_ready]

/-- Witness for C8 (amended): discharged at a state with no model and no
persisted files: the call returns not-ready, attempts no build, and the index
reports not ready. -/
theorem C8_no_model_not_ready_witness :
    ((SemanticIndex.load_or_create_index ⟨false, false, false, true⟩
        ⟨false, false, false⟩).ready = false ∧
      (SemanticIndex.load_or_create_index ⟨false, false, false, true⟩
        ⟨false, false, false⟩).buildAttempted = false) ∧
    SemanticIndex.is_ready
      (SemanticIndex.load_or_create_index ⟨false, false, false, true⟩
        ⟨false, false, false⟩).state = false :=
  ⟨(C8_no_model_not_ready ⟨false, false, false, true⟩ ⟨false, false, false⟩ rfl).1 rfl,
   (C8_no_model_not_ready ⟨false, false, false, true⟩ ⟨false, false, false⟩ rfl).2⟩

/-- Python `description.replace("\n", " ")`: newline collapse is a
character-wise substitution. -/
def collapseNewlines (s : List Char) : List Char :=
  s.map fun c => if c = '\n' then ' ' else c

/-- The truncated summary built by `SearchService.search`
(src/search_service.py, line 239): `description.strip().replace("\n", " ")[:300]`.
The input is the markup-stripped description text (the output of the external
HTML cleaner, which is out of scope). -/
def shortSummaryOf (description : List Char) : List Char :=
  (collapseNewlines (pyStripL description)).take 300

/-- The emitted summary (src/search_service.py, lines 239–241): the ellipsis
is appended when the truncated summary has exactly 300 characters and the raw
(untrimmed) description has more than 300 characters. -/
def summaryOf (description : List Char) : List Char :=
  let s := shortSummaryOf description
  if s.length = 300 ∧ 300 < description.length then s ++ ['.', '.', '.'] else s

/-- Modelled from the spec: the summary as claim C6 words it — the
markup-stripped description with newlines collapsed, truncated to at most 300
characters, with the ellipsis marker appended exactly when truncation removed
content. Used only to contrast with the source's `summaryOf`. -/
def specSummaryOf (description : List Char) : List Char :=
  let t := collapseNewlines description
  if 300 < t.length then t.take 300 ++ ['.', '.', '.'] else t

theorem collapseNewlines_length (s : List Char) :
    (collapseNewlines s).length = s.length := List.length_map _ _

theorem shortSummaryOf_length (d : List Char) :
    (shortSummaryOf d).length = min 300 (pyStripL d).length := by
  simp [shortSummaryOf, List.length_take, collapseNewlines_length]

set_option maxRecDepth 8000 in
/-- Counterexample to C6: the 301-character description made of 299 letters
followed by two spaces. The source strips before truncating but tests the
ellipsis condition against the unstripped length, so this description of 301
characters yields a 299-character summary with no ellipsis — not the
300-character summary plus ellipsis the claim requires for descriptions of
301 or more characters. -/
theorem C6_counterexample :
    (List.replicate 299 'a' ++ [' ', ' '] : List Char).length = 301 ∧
    summaryOf (List.replicate 299 'a' ++ [' ', ' ']) = List.replicate 299 'a' ∧
    (summaryOf (List.replicate 299 'a' ++ [' ', ' '])).length = 299 ∧
    summaryOf (List.replicate 299 'a' ++ [' ', ' ']) ≠
      specSummaryOf (List.replicate 299 'a' ++ [' ', ' ']) := by
  refine ⟨by simp, ?_, ?_, ?_⟩
  · have hstrip : pyStripL (List.replicate 299 'a' ++ [' ', ' ']) =
        List.replicate 299 'a' := by decide
    have hshort : shortSummaryOf (List.replicate 299 'a' ++ [' ', ' ']) =
        List.replicate 299 'a' := by
      rw [shortSummaryOf, hstrip]
      decide
    rw [summaryOf, if_neg, hshort]
    rw [shortSummaryOf_length, hstrip]
    rintro ⟨h, -⟩
    simp at h
  · have hstrip : pyStripL (List.replicate 299 'a' ++ [' ', ' ']) =
        List.replicate 299 'a' := by decide
    have hshort : shortSummaryOf (List.replicate 299 'a' ++ [' ', ' ']) =
        List.replicate 299 'a' := by
      rw [shortSummaryOf, hstrip]
      decide
    rw [summaryOf, if_neg, hshort]
    · simp
    · rw [shortSummaryOf_length, hstrip]
      rintro ⟨h, -⟩
      simp at h
  · intro heq
    have h1 : (summaryOf (List.replicate 299 'a' ++ [' ', ' '])).length ≤ 299 := by
      rw [summaryOf, if_neg]
      · rw [shortSummaryOf_length]
        have : (pyStripL (List.replicate 299 'a' ++ [' ', ' '])).length = 299 := by decide
        omega
      · rw [shortSummaryOf_length]
        have : (pyStripL (List.replicate 299 'a' ++ [' ', ' '])).length = 299 := by decide
        rintro ⟨h, -⟩
        omega
    have h2 : 300 ≤ (specSummaryOf (List.replicate 299 'a' ++ [' ', ' '])).length := by
      rw [specSummaryOf]
      have hc : (collapseNewlines (List.replicate 299 'a' ++ [' ', ' '])).length = 301 := by
        rw [collapseNewlines_length]; simp
      rw [if_pos (by omega)]
      rw [List.length_append, List.length_take, hc]
      omega
    rw [heq] at h1
    omega

/-- C6 (amended): the emitted summary is the stripped, newline-collapsed
description truncated to 300 characters; the ellipsis is appended exactly
when the stripped text still has at least 300 characters and the raw
description has more than 300; a description of exactly 300 characters never
gets an ellipsis; and a description of 301 or more characters whose stripping
removes nothing yields a 300-character summary followed by the ellipsis. -/
theorem C6_summary_truncation :
    ∀ D : List Char,
      summaryOf D =
        (if 300 ≤ (pyStripL D).length ∧ 300 < D.length
          then shortSummaryOf D ++ ['.', '.', '.']
          else shortSummaryOf D) ∧
      (D.length = 300 → summaryOf D = shortSummaryOf D) ∧
      (pyStripL D = D → 301 ≤ D.length →
        summaryOf D = (collapseNewlines D).take 300 ++ ['.', '.', '.'] ∧
        (shortSummaryOf D).length = 300 ∧
        (summaryOf D).length = 303) := by
  intro D
  have hshortlen := shortSummaryOf_length D
  have hcond : ((shortSummaryOf D).length = 300 ∧ 300 < D.length) ↔
      (300 ≤ (pyStripL D).length ∧ 300 < D.length) := by
    rw [hshortlen]
    omega
  have hmain : summaryOf D =
      (if 300 ≤ (pyStripL D).length ∧ 300 < D.length
        then shortSummaryOf D ++ ['.', '.', '.']
        else shortSummaryOf D) := by
    rw [summaryOf]
    exact if_congr hcond rfl rfl
  refine ⟨hmain, ?_, ?_⟩
  · intro h300
    rw [hmain, if_neg]
    rintro ⟨-, hlt⟩
    omega
  · intro hstrip h301
    have hsl : (pyStripL D).length = D.length := by rw [hstrip]
    have hc : (300 ≤ (pyStripL D).length ∧ 300 < D.length) := by omega
    have hlen300 : (shortSummaryOf D).length = 300 := by
      rw [hshortlen]
      omega
    refine ⟨?_, hlen300, ?_⟩
    · rw [hmain, if_pos hc, shortSummaryOf, hstrip]
    · rw [hmain, if_pos hc, List.length_append, hlen300]
      rfl

set_option maxRecDepth 8000 in
/-- Witness for C6 (amended): discharged at the concrete descriptions of 300
and 301 letters (no surrounding whitespace). -/
theorem C6_summary_truncation_witness :
    summaryOf (List.replicate 300 'b') = shortSummaryOf (List.replicate 300 'b') ∧
    (summaryOf (List.replicate 301 'b')).length = 303 :=
  ⟨(C6_summary_truncation (List.replicate 300 'b')).2.1 (by simp),
   ((C6_summary_truncation (List.replicate 301 'b')).2.2 (by decide) (by simp)).2.2⟩

namespace SearchService

/-- One corpus row as used by `SearchService.search`: the columns TITLE,
DESCRIPTION (already markup-stripped by the external HTML cleaner),
SOURCE_NAME and SYMBOLS, and MOD_DATE as parsed by
`pd.to_datetime(..., errors="coerce")` — `none` models an unparseable date
(NaT), `some d` a parsed date rendered on an integer day scale. -/
structure Row where
  title : String
  description : List Char
  sourceName : String
  modDate : Option Int
  symbols : String
  deriving Repr, DecidableEq

/-- Fallback row for total lookups; never reached on indices that pass the
`valid_indices` check. -/
def defaultRow : Row := ⟨"", [], "", none, ""⟩

/-- A data frame is a list of (pandas index, row) pairs; filtering keeps the
original indices, as pandas does. -/
abbrev Frame := List (Nat × Row)

/-- Symbol filter (src/search_service.py, lines 146–149):
`df_filtered[df_filtered['SYMBOLS'] == symbol]`. -/
def symFilter (symbol : Option String) (df : Frame) : Frame :=
  match symbol with
  | none => df
  | some s => df.filter (fun p => decide (p.2.symbols = s))

/-- Invalid-date removal (src/search_service.py, lines 152–154): when a date
bound is present, keep only rows whose MOD_DATE parsed. -/
def dateNotNaFilter (startDate endDate : Option Int) (df : Frame) : Frame :=
  if startDate.isSome || endDate.isSome then
    df.filter (fun p => p.2.modDate.isSome)
  else df

/-- Start-date filter (src/search_service.py, lines 157–162). -/
def startFilter (startDate : Option Int) (df : Frame) : Frame :=
  match startDate with
  | none => df
  | some a =>
    df.filter (fun p =>
      match p.2.modDate with
      | some d => decide (a ≤ d)
      | none => false)

/-- End-date filter (src/search_service.py, lines 164–170). -/
def endFilter (endDate : Option Int) (df : Frame) : Frame :=
  match endDate with
  | none => df
  | some b =>
    df.filter (fun p =>
      match p.2.modDate with
      | some d => decide (d ≤ b)
      | none => false)

/-- The whole per-request filter pipeline of `SearchService.search`
(src/search_service.py, lines 112–170), applied to a copy of the corpus
frame. -/
def filterDocs (df : Frame) (symbol : Option String)
    (startDate endDate : Option Int) : Frame :=
  endFilter endDate (startFilter startDate
    (dateNotNaFilter startDate endDate (symFilter symbol df)))

/-- Date rendering for display and for the deduplication key
(src/search_service.py, lines 213–219): "N/A" for an unparsed date, otherwise
the `strftime("%Y-%m-%d")` text, modelled as the canonical rendering of the
parsed day number. -/
def dateStrOf (d : Option Int) : String :=
  match d with
  | none => "N/A"
  | some n => toString n

/-- The API result record (src/api_models.py, lines 9–16). -/
structure SearchResult where
  result_number : Nat
  title : String
  date : String
  source : String
  summary : List Char
  score : ℚ
  deriving Repr, DecidableEq

/-- Row lookup `df_filtered.loc[idx]`, total via a default. -/
def lookupRow (dfF : Frame) (i : Nat) : Row :=
  ((dfF.find? (fun p => decide (p.1 = i))).map (fun p => p.2)).getD defaultRow

/-- The deduplication key (src/search_service.py, line 222):
`f"{title}|{date_str}"` with the stripped title. -/
def dedupKey (row : Row) : String :=
  pyStrip row.title ++ "|" ++ dateStrOf row.modDate

/-- One emitted result (src/search_service.py, lines 243–250). -/
def mkResult (n : Nat) (row : Row) (score : ℚ) : SearchResult :=
  { result_number := n
    title := pyStrip row.title
    date := dateStrOf row.modDate
    source := row.sourceName
    summary := summaryOf row.description
    score := score }

/-- The result-assembly loop of `SearchService.search`
(src/search_service.py, lines 196–252): walk the score-sorted list; skip
indices outside the filtered frame; stop once `top_k` results are emitted;
skip entries whose title+date combination was already seen; otherwise emit
the formatted result and count it. -/
def assembleLoop (dfF : Frame) (top_k : Nat) :
    List (Nat × ℚ) → List String → Nat → List SearchResult
  | [], _, _ => []
  | (i, score) :: rest, seen, displayed =>
    if (dfF.find? (fun p => decide (p.1 = i))).isNone then
      assembleLoop dfF top_k rest seen displayed
    else if top_k ≤ displayed then []
    else
      let row := lookupRow dfF i
      let key := dedupKey row
      if key ∈ seen then assembleLoop dfF top_k rest seen displayed
      else mkResult (displayed + 1) row score ::
        assembleLoop dfF top_k rest (key :: seen) (displayed + 1)

/-- Result assembly from the initial empty seen-set and zero count. -/
def assembleResults (dfF : Frame) (sortedResults : List (Nat × ℚ))
    (top_k : Nat) : List SearchResult :=
  assembleLoop dfF top_k sortedResults [] 0

/-- The deduplication key as recoverable from an emitted result. -/
def resultKey (r : SearchResult) : String := r.title ++ "|" ++ r.date

/-- Mutable service state: the corpus frame `self.df` and the shared
formatter's frame `self.hybrid_searcher.result_formatter.df`. -/
structure ServiceState where
  df : Frame
  formatterDf : Frame
  deriving Repr, DecidableEq

/-- Outcome of one service-level search call. -/
structure SearchOutcome where
  results : List SearchResult
  strategy : String
  deriving Repr, DecidableEq

/-- The strategy banner (src/search_service.py, line 189). The percentage
rendering of the weights is abstracted to the strategy label, since no claim
concerns the banner text. -/
def strategyString (qa : QueryAnalyzer.QueryAnalysis) : String :=
  if 0 < qa.semantic_weight then "weighted (" ++ qa.strategy ++ ")"
  else "Keyword matching only"

/-- Embedding of `SearchService.search` (src/search_service.py,
lines 104–259): filter a copy of the corpus frame by symbol and date bounds;
return early on an empty filtered frame; otherwise assign the filtered frame
to the shared formatter (`self.hybrid_searcher.result_formatter.df = df_filtered`,
line 179), fuse the two retrievers' candidates (which are oracles scored over
the full corpus), sort by descending fused score, and assemble results. The
returned pair is (outcome, state after the call). -/
def search (st : ServiceState) (query : String) (top_k : Nat)
    (startDate endDate : Option Int) (symbol : Option String)
    (semantic_results keyword_results : List HybridSearcher.Cand) :
    SearchOutcome × ServiceState :=
  let dfF := filterDocs st.df symbol startDate endDate
  if dfF.isEmpty then
    ({ results := [], strategy := "No results (filtered)" }, st)
  else
    let st' := { st with formatterDf := dfF }
    let qa := QueryAnalyzer.analyze_query query
    let combined := HybridSearcher.combine_results semantic_results
      keyword_results qa.semantic_weight qa.keyword_weight
    let sortedResults :=
      List.insertionSort (fun a b : Nat × ℚ => b.2 ≤ a.2) combined
    ({ results := assembleResults dfF sortedResults top_k
       strategy := strategyString qa }, st')

end SearchService

namespace SearchService

theorem assembleLoop_break (dfF : Frame) (top_k : Nat) (l : List (Nat × ℚ))
    (seen : List String) (d : Nat) (h : top_k ≤ d) :
    assembleLoop dfF top_k l seen d = [] := by
  induction l with
  | nil => rfl
  | cons x rest ih =>
    obtain ⟨i, s⟩ := x
    cases hfind : dfF.find? (fun q => decide (q.1 = i)) with
    | none =>
      rw [show assembleLoop dfF top_k ((i, s) :: rest) seen d =
          assembleLoop dfF top_k rest seen d from by simp [assembleLoop, hfind]]
      exact ih
    | some p => simp [assembleLoop, hfind, h]

theorem assembleLoop_skip_dup (dfF : Frame) (top_k : Nat) (i2 : Nat) (s2 : ℚ)
    (l3 : List (Nat × ℚ)) :
    ∀ (l2 : List (Nat × ℚ)) (seen : List String) (d : Nat),
      dedupKey (lookupRow dfF i2) ∈ seen →
      assembleLoop dfF top_k (l2 ++ (i2, s2) :: l3) seen d =
        assembleLoop dfF top_k (l2 ++ l3) seen d := by
  intro l2
  induction l2 with
  | nil =>
    intro seen d hmem
    simp only [List.nil_append]
    cases hfind : dfF.find? (fun q => decide (q.1 = i2)) with
    | none => simp [assembleLoop, hfind]
    | some p =>
      by_cases hbreak : top_k ≤ d
      · rw [show assembleLoop dfF top_k ((i2, s2) :: l3) seen d = [] from by
          simp [assembleLoop, hfind, hbreak]]
        rw [assembleLoop_break dfF top_k l3 seen d hbreak]
      · simp [assembleLoop, hfind, hbreak, hmem]
  | cons x l2 ih =>
    intro seen d hmem
    obtain ⟨j, s⟩ := x
    simp only [List.cons_append]
    cases hfind : dfF.find? (fun q => decide (q.1 = j)) with
    | none =>
      rw [show assembleLoop dfF top_k ((j, s) :: (l2 ++ (i2, s2) :: l3)) seen d =
          assembleLoop dfF top_k (l2 ++ (i2, s2) :: l3) seen d from by
            simp [assembleLoop, hfind]]
      rw [show assembleLoop dfF top_k ((j, s) :: (l2 ++ l3)) seen d =
          assembleLoop dfF top_k (l2 ++ l3) seen d from by
            simp [assembleLoop, hfind]]
      exact ih seen d hmem
    | some p =>
      by_cases hbreak : top_k ≤ d
      · simp [assembleLoop, hfind, hbreak]
      · by_cases hdup : dedupKey (lookupRow dfF j) ∈ seen
        · simp only [assembleLoop, hfind, Option.isNone_some, Bool.false_eq_true,
            if_false, if_neg hbreak, if_pos hdup]
          exact ih seen d hmem
        · simp only [assembleLoop, hfind, Option.isNone_some, Bool.false_eq_true,
            if_false, if_neg hbreak, if_neg hdup]
          rw [ih _ _ (List.mem_cons_of_mem _ hmem)]

theorem resultKey_mkResult (n : Nat) (row : Row) (s : ℚ) :
    resultKey (mkResult n row s) = dedupKey row := rfl

theorem assembleLoop_keys (dfF : Frame) (top_k : Nat) :
    ∀ (l : List (Nat × ℚ)) (seen : List String) (d : Nat),
      (∀ r ∈ assembleLoop dfF top_k l seen d, resultKey r ∉ seen) ∧
      ((assembleLoop dfF top_k l seen d).map resultKey).Nodup := by
  intro l
  induction l with
  | nil => intro seen d; simp [assembleLoop]
  | cons x rest ih =>
    intro seen d
    obtain ⟨i, s⟩ := x
    cases hfind : dfF.find? (fun q => decide (q.1 = i)) with
    | none =>
      rw [show assembleLoop dfF top_k ((i, s) :: rest) seen d =
          assembleLoop dfF top_k rest seen d from by simp [assembleLoop, hfind]]
      exact ih seen d
    | some p =>
      by_cases hbreak : top_k ≤ d
      · simp [assembleLoop, hfind, hbreak]
      · by_cases hdup : dedupKey (lookupRow dfF i) ∈ seen
        · rw [show assembleLoop dfF top_k ((i, s) :: rest) seen d =
            assembleLoop dfF top_k rest seen d from by
              simp [assembleLoop, hfind, hbreak, hdup]]
          exact ih seen d
        · rw [show assembleLoop dfF top_k ((i, s) :: rest) seen d =
            mkResult (d + 1) (lookupRow dfF i) s ::
              assembleLoop dfF top_k rest (dedupKey (lookupRow dfF i) :: seen) (d + 1) from by
              simp [assembleLoop, hfind, hbreak, hdup]]
          obtain ⟨ihmem, ihnodup⟩ := ih (dedupKey (lookupRow dfF i) :: seen) (d + 1)
          constructor
          · intro r hr
            rcases List.mem_cons.mp hr with heq | htail
            · rw [heq, resultKey_mkResult]
              exact hdup
            · intro hmem
              exact ihmem r htail (List.mem_cons_of_mem _ hmem)
          · rw [List.map_cons, resultKey_mkResult]
            refine List.Nodup.cons ?_ ihnodup
            intro hmem
            rcases List.mem_map.mp hmem with ⟨r, hr, hkey⟩
            exact ihmem r hr (hkey ▸ List.mem_cons_self _ _)

theorem assembleLoop_mem (dfF : Frame) (top_k : Nat) :
    ∀ (l : List (Nat × ℚ)) (seen : List String) (d : Nat) (r : SearchResult),
      r ∈ assembleLoop dfF top_k l seen d →
      ∃ i s n, (i, s) ∈ l ∧
        (dfF.find? (fun q => decide (q.1 = i))).isSome = true ∧
        r = mkResult n (lookupRow dfF i) s := by
  intro l
  induction l with
  | nil => intro seen d r hr; simp [assembleLoop] at hr
  | cons x rest ih =>
    intro seen d r hr
    obtain ⟨i, s⟩ := x
    cases hfind : dfF.find? (fun q => decide (q.1 = i)) with
    | none =>
      rw [show assembleLoop dfF top_k ((i, s) :: rest) seen d =
          assembleLoop dfF top_k rest seen d from by simp [assembleLoop, hfind]] at hr
      obtain ⟨i', s', n, hmem, hsome, heq⟩ := ih seen d r hr
      exact ⟨i', s', n, List.mem_cons_of_mem _ hmem, hsome, heq⟩
    | some p =>
      by_cases hbreak : top_k ≤ d
      · rw [show assembleLoop dfF top_k ((i, s) :: rest) seen d = [] from by
          simp [assembleLoop, hfind, hbreak]] at hr
        simp at hr
      · by_cases hdup : dedupKey (lookupRow dfF i) ∈ seen
        · rw [show assembleLoop dfF top_k ((i, s) :: rest) seen d =
            assembleLoop dfF top_k rest seen d from by
              simp [assembleLoop, hfind, hbreak, hdup]] at hr
          obtain ⟨i', s', n, hmem, hsome, heq⟩ := ih seen d r hr
          exact ⟨i', s', n, List.mem_cons_of_mem _ hmem, hsome, heq⟩
        · rw [show assembleLoop dfF top_k ((i, s) :: rest) seen d =
            mkResult (d + 1) (lookupRow dfF i) s ::
              assembleLoop dfF top_k rest (dedupKey (lookupRow dfF i) :: seen) (d + 1) from by
              simp [assembleLoop, hfind, hbreak, hdup]] at hr
          rcases List.mem_cons.mp hr with heq | htail
          · exact ⟨i, s, d + 1, List.mem_cons_self _ _, by simp [hfind], heq⟩
          · obtain ⟨i', s', n, hmem, hsome, heq⟩ := ih _ _ r htail
            exact ⟨i', s', n, List.mem_cons_of_mem _ hmem, hsome, heq⟩

theorem lookupRow_mem (dfF : Frame) (i : Nat)
    (h : (dfF.find? (fun q => decide (q.1 = i))).isSome = true) :
    (i, lookupRow dfF i) ∈ dfF := by
  obtain ⟨p, hp⟩ := Option.isSome_iff_exists.mp h
  have hmem := List.mem_of_find?_eq_some hp
  have hpred := List.find?_some hp
  have hi : p.1 = i := by simpa using hpred
  have hrow : lookupRow dfF i = p.2 := by simp [lookupRow, hp]
  rw [hrow, ← hi]
  exact hmem

theorem mem_endFilter (ed : Option Int) (l : Frame) (i : Nat) (row : Row)
    (h : (i, row) ∈ endFilter ed l) :
    (i, row) ∈ l ∧ (∀ b, ed = some b → ∃ d, row.modDate = some d ∧ d ≤ b) := by
  cases ed with
  | none => exact ⟨h, by simp⟩
  | some b =>
    obtain ⟨hmem, hp⟩ := List.mem_filter.mp h
    refine ⟨hmem, ?_⟩
    intro b' hb'
    injection hb' with hb'
    subst hb'
    cases hd : row.modDate with
    | none => simp [endFilter, hd] at hp
    | some d =>
      simp only [hd] at hp
      exact ⟨d, rfl, of_decide_eq_true hp⟩

theorem mem_startFilter (sd : Option Int) (l : Frame) (i : Nat) (row : Row)
    (h : (i, row) ∈ startFilter sd l) :
    (i, row) ∈ l ∧ (∀ a, sd = some a → ∃ d, row.modDate = some d ∧ a ≤ d) := by
  cases sd with
  | none => exact ⟨h, by simp⟩
  | some a =>
    obtain ⟨hmem, hp⟩ := List.mem_filter.mp h
    refine ⟨hmem, ?_⟩
    intro a' ha'
    injection ha' with ha'
    subst ha'
    cases hd : row.modDate with
    | none => simp [startFilter, hd] at hp
    | some d =>
      simp only [hd] at hp
      exact ⟨d, rfl, of_decide_eq_true hp⟩

theorem mem_dateNotNaFilter (sd ed : Option Int) (l : Frame) (i : Nat) (row : Row)
    (h : (i, row) ∈ dateNotNaFilter sd ed l) : (i, row) ∈ l := by
  unfold dateNotNaFilter at h
  by_cases hi : sd.isSome || ed.isSome
  · rw [if_pos hi] at h
    exact (List.mem_filter.mp h).1
  · rwa [if_neg hi] at h

theorem mem_symFilter (symbol : Option String) (l : Frame) (i : Nat) (row : Row)
    (h : (i, row) ∈ symFilter symbol l) :
    (i, row) ∈ l ∧ (∀ s, symbol = some s → row.symbols = s) := by
  cases symbol with
  | none => exact ⟨h, by simp⟩
  | some s =>
    obtain ⟨hmem, hp⟩ := List.mem_filter.mp h
    refine ⟨hmem, ?_⟩
    intro s' hs'
    injection hs' with hs'
    subst hs'
    exact of_decide_eq_true hp

theorem mem_filterDocs (df : Frame) (symbol : Option String) (sd ed : Option Int)
    (i : Nat) (row : Row) (h : (i, row) ∈ filterDocs df symbol sd ed) :
    (i, row) ∈ df ∧
    (∀ s, symbol = some s → row.symbols = s) ∧
    (∀ a, sd = some a → ∃ d, row.modDate = some d ∧ a ≤ d) ∧
    (∀ b, ed = some b → ∃ d, row.modDate = some d ∧ d ≤ b) := by
  unfold filterDocs at h
  obtain ⟨h, hend⟩ := mem_endFilter ed _ i row h
  obtain ⟨h, hstart⟩ := mem_startFilter sd _ i row h
  have h := mem_dateNotNaFilter sd ed _ i row h
  obtain ⟨h, hsym⟩ := mem_symFilter symbol _ i row h
  exact ⟨h, hsym, hstart, hend⟩

end SearchService


/-- C5: in the result-assembly loop, for every sorted scored list containing
two entries with identical deduplication keys (the first of them pointing at a
filtered-in row), deleting the later duplicate does not change the output at
all — it is skipped and never counts toward `top_k`; on the two-entry list the
output is exactly the one result built from the earlier entry; and no two
emitted results ever share a deduplication key. -/
theorem C5_deduplication :
    (∀ (dfF : SearchService.Frame) (top_k : Nat) (l1 l2 l3 : List (Nat × ℚ))
        (i1 i2 : Nat) (s1 s2 : ℚ),
      (dfF.find? (fun q => decide (q.1 = i1))).isSome = true →
      SearchService.dedupKey (SearchService.lookupRow dfF i1) =
        SearchService.dedupKey (SearchService.lookupRow dfF i2) →
      SearchService.assembleResults dfF
          (l1 ++ ((i1, s1) :: (l2 ++ ((i2, s2) :: l3)))) top_k =
        SearchService.assembleResults dfF (l1 ++ ((i1, s1) :: (l2 ++ l3))) top_k) ∧
    (∀ (dfF : SearchService.Frame) (top_k : Nat) (i1 i2 : Nat) (s1 s2 : ℚ),
      (dfF.find? (fun q => decide (q.1 = i1))).isSome = true →
      SearchService.dedupKey (SearchService.lookupRow dfF i1) =
        SearchService.dedupKey (SearchService.lookupRow dfF i2) →
      1 ≤ top_k →
      SearchService.assembleResults dfF [(i1, s1), (i2, s2)] top_k =
        [SearchService.mkResult 1 (SearchService.lookupRow dfF i1) s1]) ∧
    (∀ (dfF : SearchService.Frame) (top_k : Nat) (l : List (Nat × ℚ)),
      ((SearchService.assembleResults dfF l top_k).map SearchService.resultKey).Nodup) := by
  refine ⟨?_, ?_, ?_⟩
  · intro dfF top_k l1 l2 l3 i1 i2 s1 s2 hvalid hkey
    suffices h : ∀ (l1 : List (Nat × ℚ)) (seen : List String) (d : Nat),
        SearchService.assembleLoop dfF top_k
            (l1 ++ ((i1, s1) :: (l2 ++ ((i2, s2) :: l3)))) seen d =
          SearchService.assembleLoop dfF top_k (l1 ++ ((i1, s1) :: (l2 ++ l3))) seen d by
      exact h l1 [] 0
    intro l1
    induction l1 with
    | nil =>
      intro seen d
      simp only [List.nil_append]
      obtain ⟨p, hfind⟩ := Option.isSome_iff_exists.mp hvalid
      by_cases hbreak : top_k ≤ d
      · rw [SearchService.assembleLoop_break _ _ _ _ _ hbreak,
          SearchService.assembleLoop_break _ _ _ _ _ hbreak]
      · by_cases hdup : SearchService.dedupKey (SearchService.lookupRow dfF i1) ∈ seen
        · rw [show SearchService.assembleLoop dfF top_k
              ((i1, s1) :: (l2 ++ ((i2, s2) :: l3))) seen d =
              SearchService.assembleLoop dfF top_k (l2 ++ ((i2, s2) :: l3)) seen d from by
                simp [SearchService.assembleLoop, hfind, hbreak, hdup]]
          rw [show SearchService.assembleLoop dfF top_k ((i1, s1) :: (l2 ++ l3)) seen d =
              SearchService.assembleLoop dfF top_k (l2 ++ l3) seen d from by
                simp [SearchService.assembleLoop, hfind, hbreak, hdup]]
          exact SearchService.assembleLoop_skip_dup dfF top_k i2 s2 l3 l2 seen d
            (by rw [← hkey]; exact hdup)
        · rw [show SearchService.assembleLoop dfF top_k
              ((i1, s1) :: (l2 ++ ((i2, s2) :: l3))) seen d =
              SearchService.mkResult (d + 1) (SearchService.lookupRow dfF i1) s1 ::
                SearchService.assembleLoop dfF top_k (l2 ++ ((i2, s2) :: l3))
                  (SearchService.dedupKey (SearchService.lookupRow dfF i1) :: seen)
                  (d + 1) from by
                simp [SearchService.assembleLoop, hfind, hbreak, hdup]]
          rw [show SearchService.assembleLoop dfF top_k ((i1, s1) :: (l2 ++ l3)) seen d =
              SearchService.mkResult (d + 1) (SearchService.lookupRow dfF i1) s1 ::
                SearchService.assembleLoop dfF top_k (l2 ++ l3)
                  (SearchService.dedupKey (SearchService.lookupRow dfF i1) :: seen)
                  (d + 1) from by
                simp [SearchService.assembleLoop, hfind, hbreak, hdup]]
          rw [SearchService.assembleLoop_skip_dup dfF top_k i2 s2 l3 l2 _ _
            (by rw [← hkey]; exact List.mem_cons_self _ _)]
    | cons x l1 ih =>
      intro seen d
      obtain ⟨j, s⟩ := x
      simp only [List.cons_append]
      cases hfind : dfF.find? (fun q => decide (q.1 = j)) with
      | none =>
        rw [show SearchService.assembleLoop dfF top_k
            ((j, s) :: (l1 ++ ((i1, s1) :: (l2 ++ ((i2, s2) :: l3))))) seen d =
            SearchService.assembleLoop dfF top_k
              (l1 ++ ((i1, s1) :: (l2 ++ ((i2, s2) :: l3)))) seen d from by
              simp [SearchService.assembleLoop, hfind]]
        rw [show SearchService.assembleLoop dfF top_k
            ((j, s) :: (l1 ++ ((i1, s1) :: (l2 ++ l3)))) seen d =
            SearchService.assembleLoop dfF top_k
              (l1 ++ ((i1, s1) :: (l2 ++ l3))) seen d from by
              simp [SearchService.assembleLoop, hfind]]
        exact ih seen d
      | some p =>
        by_cases hbreak : top_k ≤ d
        · simp [SearchService.assembleLoop, hfind, hbreak]
        · by_cases hdup : SearchService.dedupKey (SearchService.lookupRow dfF j) ∈ seen
          · simp only [SearchService.assembleLoop, hfind, Option.isNone_some,
              Bool.false_eq_true, if_false, if_neg hbreak, if_pos hdup]
            exact ih seen d
          · simp only [SearchService.assembleLoop, hfind, Option.isNone_some,
              Bool.false_eq_true, if_false, if_neg hbreak, if_neg hdup]
            rw [ih _ _]
  · intro dfF top_k i1 i2 s1 s2 hvalid hkey htop
    obtain ⟨p, hfind⟩ := Option.isSome_iff_exists.mp hvalid
    have hnotbreak : ¬ top_k ≤ 0 := by omega
    show SearchService.assembleLoop dfF top_k [(i1, s1), (i2, s2)] [] 0 = _
    rw [show SearchService.assembleLoop dfF top_k [(i1, s1), (i2, s2)] [] 0 =
        SearchService.mkResult 1 (SearchService.lookupRow dfF i1) s1 ::
          SearchService.assembleLoop dfF top_k [(i2, s2)]
            [SearchService.dedupKey (SearchService.lookupRow dfF i1)] 1 from by
          simp [SearchService.assembleLoop, hfind, hnotbreak]]
    have htail : SearchService.assembleLoop dfF top_k [(i2, s2)]
        [SearchService.dedupKey (SearchService.lookupRow dfF i1)] 1 = [] := by
      cases hfind2 : dfF.find? (fun q => decide (q.1 = i2)) with
      | none => simp [SearchService.assembleLoop, hfind2]
      | some p2 =>
        by_cases hbreak2 : top_k ≤ 1
        · simp [SearchService.assembleLoop, hfind2, hbreak2]
        · have hk2 := hkey.symm
          simp [SearchService.assembleLoop, hfind2, hbreak2, hk2]
    rw [htail]
  · intro dfF top_k l
    exact (SearchService.assembleLoop_keys dfF top_k l [] 0).2

/-- Witness for C5: on the frame holding one row at index 0 and the sorted
list [(0, 5), (0, 3)] (identical keys, same row), assembly emits exactly the
one result built from the first entry. -/
theorem C5_deduplication_witness :
    SearchService.assembleResults [(0, ⟨"T", [], "S", some 5, "A"⟩)] [(0, 5), (0, 3)] 10 =
      [SearchService.mkResult 1
        (SearchService.lookupRow [(0, ⟨"T", [], "S", some 5, "A"⟩)] 0) 5] :=
  C5_deduplication.2.1 [(0, ⟨"T", [], "S", some 5, "A"⟩)] 10 0 0 5 3 rfl rfl (by decide)

/-- Sample corpus row with symbol tag "A". -/
def sampleRowA : SearchService.Row := ⟨"Apple", ['x'], "SRC", some 10, "A"⟩

/-- Sample corpus row with symbol tag "B". -/
def sampleRowB : SearchService.Row := ⟨"Banana", ['y'], "SRC", some 11, "B"⟩

/-- Sample two-row corpus frame. -/
def sampleDf : SearchService.Frame := [(0, sampleRowA), (1, sampleRowB)]

/-- Sample service state: corpus frame and formatter frame both start as the
full corpus. -/
def sampleState : SearchService.ServiceState := ⟨sampleDf, sampleDf⟩

/-- C9 evaluated at a failing input: a search with symbol filter "A" on the
two-row corpus overwrites the shared formatter's document view with the
request's filtered one-row frame — the shared per-service state is changed by
the request, contradicting the claim that search leaves it unchanged. -/
theorem C9_shared_formatter_mutated :
    (SearchService.search sampleState "apple" 10 none none (some "A") [] []).2.formatterDf =
      [(0, sampleRowA)] ∧
    sampleState.formatterDf = sampleDf ∧
    (SearchService.search sampleState "apple" 10 none none (some "A") [] []).2.formatterDf ≠
      sampleState.formatterDf := by
  exact ⟨rfl, rfl, by decide⟩

/-- C10: every result returned by the service-level search comes from a row
of the filtered frame: when a symbol filter is supplied the row carries
exactly that symbol, and when a start or end date bound is supplied the row's
date parsed and lies within the bound — whatever candidate list the
retrievers (which score the full unfiltered corpus) produced. -/
theorem C10_filters_respected :
    ∀ (st : SearchService.ServiceState) (query : String) (top_k : Nat)
      (sd ed : Option Int) (symbol : Option String)
      (sem kw : List HybridSearcher.Cand) (r : SearchService.SearchResult),
      r ∈ (SearchService.search st query top_k sd ed symbol sem kw).1.results →
      ∃ i row, (i, row) ∈ SearchService.filterDocs st.df symbol sd ed ∧
        (i, row) ∈ st.df ∧
        r.title = pyStrip row.title ∧
        (∀ s, symbol = some s → row.symbols = s) ∧
        (∀ a, sd = some a → ∃ d, row.modDate = some d ∧ a ≤ d) ∧
        (∀ b, ed = some b → ∃ d, row.modDate = some d ∧ d ≤ b) := by
  intro st query top_k sd ed symbol sem kw r hr
  by_cases hemp : (SearchService.filterDocs st.df symbol sd ed).isEmpty
  · rw [show (SearchService.search st query top_k sd ed symbol sem kw).1.results = []
        from by simp [SearchService.search, hemp]] at hr
    simp at hr
  · have hres : (SearchService.search st query top_k sd ed symbol sem kw).1.results =
        SearchService.assembleResults (SearchService.filterDocs st.df symbol sd ed)
          (List.insertionSort (fun a b : Nat × ℚ => b.2 ≤ a.2)
            (HybridSearcher.combine_results sem kw
              (QueryAnalyzer.analyze_query query).semantic_weight
              (QueryAnalyzer.analyze_query query).keyword_weight)) top_k := by
      simp [SearchService.search, hemp]
    rw [hres] at hr
    obtain ⟨i, s, n, hmem, hsome, heq⟩ :=
      SearchService.assembleLoop_mem (SearchService.filterDocs st.df symbol sd ed)
        top_k _ [] 0 r hr
    have hrowmem := SearchService.lookupRow_mem _ i hsome
    obtain ⟨hdf, hsym, hstart, hend⟩ :=
      SearchService.mem_filterDocs st.df symbol sd ed i _ hrowmem
    exact ⟨i, SearchService.lookupRow _ i, hrowmem, hdf, by rw [heq]; rfl,
      hsym, hstart, hend⟩

/-- Witness for C10: the membership hypothesis discharged at a concrete
search — symbol filter "A" on the sample corpus, one semantic candidate for
row 0 — whose single emitted result the theorem traces back to a filtered-in
row with symbol "A". -/
theorem C10_filters_respected_witness :
    ∃ i row, (i, row) ∈ SearchService.filterDocs sampleState.df (some "A") none none ∧
      (i, row) ∈ sampleState.df ∧
      (SearchService.mkResult 1
        (SearchService.lookupRow
          (SearchService.filterDocs sampleState.df (some "A") none none) 0)
        (HybridSearcher.dictGet [] 0 + 2 * (9/10))).title = pyStrip row.title ∧
      (∀ s, (some "A" : Option String) = some s → row.symbols = s) ∧
      (∀ a, (none : Option Int) = some a → ∃ d, row.modDate = some d ∧ a ≤ d) ∧
      (∀ b, (none : Option Int) = some b → ∃ d, row.modDate = some d ∧ d ≤ b) := by
  have hres : (SearchService.search sampleState "q" 10 none none (some "A")
      [⟨0, 2, "semantic"⟩] []).1.results =
      [SearchService.mkResult 1
        (SearchService.lookupRow
          (SearchService.filterDocs sampleState.df (some "A") none none) 0)
        (HybridSearcher.dictGet [] 0 + 2 * (9/10))] := rfl
  exact C10_filters_respected sampleState "q" 10 none none (some "A")
    [⟨0, 2, "semantic"⟩] []
    (SearchService.mkResult 1
      (SearchService.lookupRow
        (SearchService.filterDocs sampleState.df (some "A") none none) 0)
      (HybridSearcher.dictGet [] 0 + 2 * (9/10)))
    (by rw [hres]; exact List.mem_singleton.mpr rfl)
